import Mathlib

/-!
Verification development for the asynchronous I/O and socket subsystem of a
WebAssembly runtime.  The definitions below are a shallow embedding of the
source code: the socket-address wire codecs, the socket state machine and the
synchronous operations from the Tokio-backed executor
(`src/lib/wasi/src/wasio/executor_impl/tokio.rs`), the executor's token
allocation and completion queues, a per-token interleaving model of oneshot
task completion versus cancellation, and the chunked copy loop of
`sock_send_file` (`src/lib/wasi/src/syscalls/wasix/sock_send_file.rs`).
-/

namespace WasmerSpec

/-! ## Errno result codes (WASI snapshot numbering used by the source) -/
def ESUCCESS : Nat := 0

def EACCES : Nat := 2

def EADDRINUSE : Nat := 3

def EADDRNOTAVAIL : Nat := 4

def EAGAIN : Nat := 6

def EBADF : Nat := 8

def ECANCELED : Nat := 11

def ECONNABORTED : Nat := 13

def ECONNREFUSED : Nat := 14

def ECONNRESET : Nat := 15

def EEXIST : Nat := 20

def EFAULT : Nat := 21

def EINVAL : Nat := 28

def EIO : Nat := 29

def EISDIR : Nat := 31

def ENOTCONN : Nat := 53

def EPERM : Nat := 63

def EPIPE : Nat := 64

def ETIMEDOUT : Nat := 73

/-- Address family constant `AF_INET` (IPv4). -/
def AF_INET : Nat := 2

/-- Address family constant `AF_INET6` (IPv6). -/
def AF_INET6 : Nat := 10

/-! ## Socket address wire structs

The source stores IP addresses as their octet arrays (`Ipv4Addr::octets` /
`Ipv4Addr::from` are mutually inverse newtype conversions), so the model
represents an IP address directly by its octet list.  Ports are `u16` values
held in network byte order in the wire struct; `u16::to_be` on the
little-endian hosts the runtime targets is a byte swap. -/

/-- A socket address: embedding of `std::net::SocketAddr`.  `v4` carries the
four address octets and the port; `v6` carries the sixteen address octets,
the port, the flow info and the scope id. -/
inductive SocketAddr where
  | v4 (ip : List Nat) (port : Nat)
  | v6 (ip : List Nat) (port : Nat) (flowinfo : Nat) (scopeId : Nat)
deriving DecidableEq, Repr

/-- The address octets and port of a socket address, the data the wire
round-trip is required to preserve. -/
def SocketAddr.ipPort : SocketAddr → List Nat × Nat
  | .v4 ip p => (ip, p)
  | .v6 ip p _ _ => (ip, p)

/-- Wire struct `SockaddrIn` (16 bytes: family, big-endian port, 4 address
octets, 8 zero bytes). -/
structure SockaddrIn where
  sin_family : Nat
  sin_port : Nat
  sin_addr : List Nat
  sin_zero : List Nat
deriving DecidableEq, Repr

/-- Wire struct `SockaddrIn6` (28 bytes: family, big-endian port, flow info,
16 address octets, scope id). -/
structure SockaddrIn6 where
  sin6_family : Nat
  sin6_port : Nat
  sin6_flowinfo : Nat
  sin6_addr : List Nat
  sin6_scope_id : Nat
deriving DecidableEq, Repr

/-- `u16::to_be` on a little-endian host: swap the two bytes of a 16-bit
value.  The source applies this at every read and write of a wire port
field (the comment there says "swap byteorder"). -/
def u16ToBe (n : Nat) : Nat := (n % 256) * 256 + (n / 256) % 256

/-- Embedding of `decode_socket_addr`: only sizes 16 (IPv4) and 28 (IPv6)
are accepted, anything else is `__WASI_EINVAL`.  `m4` and `m6` are the two
possible typed views of the guest memory at `sockaddr_ptr`; size 16 reads
the `SockaddrIn` view, size 28 reads the `SockaddrIn6` view. -/
def decode_socket_addr (sockaddr_size : Nat) (m4 : SockaddrIn) (m6 : SockaddrIn6) :
    Except Nat SocketAddr :=
  match sockaddr_size with
  | 16 => .ok (.v4 m4.sin_addr (u16ToBe m4.sin_port))
  | 28 => .ok (.v6 m6.sin6_addr (u16ToBe m6.sin6_port) m6.sin6_flowinfo m6.sin6_scope_id)
  | _ => .error EINVAL

/-- Embedding of `encode_socket_addr`: writes a `SockaddrIn` (for a V4
address, requires `sockaddr_size ≥ 16`, returns actual length 16) or a
`SockaddrIn6` (for a V6 address, requires `sockaddr_size ≥ 28`, returns
actual length 28, zeroing flow info and scope id); a smaller size fails
`__WASI_EINVAL`.  The result carries the struct written to guest memory and
the returned actual length. -/
def encode_socket_addr (sockaddr_size : Nat) (addr : SocketAddr) :
    Except Nat ((SockaddrIn ⊕ SockaddrIn6) × Nat) :=
  match addr with
  | .v4 ip port =>
      if sockaddr_size < 16 then .error EINVAL
      else .ok (.inl ⟨AF_INET, u16ToBe port, ip, List.replicate 8 0⟩, 16)
  | .v6 ip port _ _ =>
      if sockaddr_size < 28 then .error EINVAL
      else .ok (.inr ⟨AF_INET6, u16ToBe port, 0, ip, 0⟩, 28)

/-- Encoding followed by decoding at the same size: the decoder is fed the
view of memory that the encoder wrote (the other view is irrelevant garbage,
modelled by a default struct). -/
def encodeThenDecode (sockaddr_size : Nat) (addr : SocketAddr) : Except Nat SocketAddr :=
  match encode_socket_addr sockaddr_size addr with
  | .error e => .error e
  | .ok (.inl m4, _) => decode_socket_addr sockaddr_size m4 ⟨0, 0, 0, [], 0⟩
  | .ok (.inr m6, _) => decode_socket_addr sockaddr_size ⟨0, 0, [], []⟩ m6

/-! ## Socket state machine

Embedding of `AbstractTcpSocketInner` and the state transitions performed by
`SyncOperation::SocketBind`, `SyncOperation::SocketListen` and the
`AsyncOneshotOperation::SocketConnect` task body.  The host `TcpListener` /
`TcpStream` handles are represented by their observable `SocketMetadata`
(raw fd, local address, optional remote address); the host-level
bind/connect calls, which can fail with a mapped I/O error, are passed in as
an `Except` parameter. -/

/-- Metadata of a live host socket: raw fd, local address, remote address. -/
structure SocketMetadata where
  fd : Nat
  localAddress : SocketAddr
  remoteAddress : Option SocketAddr
deriving DecidableEq, Repr

/-- Embedding of `AbstractTcpSocketInner`. -/
inductive AbstractTcpSocketInner where
  | undefined4
  | undefined6
  | binded (addr : SocketAddr)
  | listening (md : SocketMetadata)
  | stream (md : SocketMetadata)
deriving DecidableEq, Repr

/-- The socket is in the Unbound state (`Undefined4` or `Undefined6`). -/
def AbstractTcpSocketInner.isUnbound : AbstractTcpSocketInner → Bool
  | .undefined4 | .undefined6 => true
  | _ => false

/-- The socket is in the Bound state (`Binded`). -/
def AbstractTcpSocketInner.isBound : AbstractTcpSocketInner → Bool
  | .binded _ => true
  | _ => false

/-- The socket is in the Listening state. -/
def AbstractTcpSocketInner.isListening : AbstractTcpSocketInner → Bool
  | .listening _ => true
  | _ => false

/-- The socket is in the Connected state (`Stream`). -/
def AbstractTcpSocketInner.isStream : AbstractTcpSocketInner → Bool
  | .stream _ => true
  | _ => false

/-- Embedding of `SyncOperation::SocketBind`: matches on the pair of the
`sockaddr_size` argument and the current state; size 16 on an `Undefined4`
socket or size 28 on an `Undefined6` socket reads the corresponding wire
struct (a failing guest-memory dereference, modelled by `none`, faults) and
moves to `Binded`; every other combination fails `__WASI_EINVAL` without
touching the state.  Returns the state after the call and the error, if
any. -/
def socketBind (st : AbstractTcpSocketInner) (sockaddr_size : Nat)
    (m4 : Option SockaddrIn) (m6 : Option SockaddrIn6) :
    AbstractTcpSocketInner × Option Nat :=
  match sockaddr_size, st with
  | 16, .undefined4 =>
      match m4 with
      | none => (st, some EFAULT)
      | some s => (.binded (.v4 s.sin_addr (u16ToBe s.sin_port)), none)
  | 28, .undefined6 =>
      match m6 with
      | none => (st, some EFAULT)
      | some s =>
          (.binded (.v6 s.sin6_addr (u16ToBe s.sin6_port) s.sin6_flowinfo s.sin6_scope_id),
            none)
  | _, _ => (st, some EINVAL)

/-- Embedding of `SyncOperation::SocketListen`: only a `Binded` socket may
listen; `host` is the outcome of `TcpListener::bind` on the stored address
plus the `local_addr` query, already mapped through `from_tokio_error`.  On
host failure the state is left unchanged; any non-`Binded` state fails
`__WASI_EINVAL` unchanged. -/
def socketListen (st : AbstractTcpSocketInner) (host : Except Nat SocketMetadata) :
    AbstractTcpSocketInner × Option Nat :=
  match st with
  | .binded _ =>
      match host with
      | .ok md => (.listening md, none)
      | .error e => (st, some e)
  | _ => (st, some EINVAL)

/-- Embedding of the state transition inside the
`AsyncOneshotOperation::SocketConnect` task body: the task takes the write
lock, proceeds only from `Undefined4`, `Undefined6` or `Binded` (failing
`__WASI_EINVAL` otherwise), performs the host `TcpStream::connect` (outcome
`host`, already mapped through `from_tokio_error`), and on success replaces
the state with a `Stream` carrying the connection metadata. -/
def socketConnectTransition (st : AbstractTcpSocketInner)
    (host : Except Nat SocketMetadata) : AbstractTcpSocketInner × Option Nat :=
  match st with
  | .undefined4 | .undefined6 | .binded _ =>
      match host with
      | .ok md => (.stream md, none)
      | .error e => (st, some e)
  | _ => (st, some EINVAL)

/-! ## Synchronous accept poll

Embedding of `SyncOperation::SocketAccept`: a non-blocking `try_recv` on the
capacity-1 accept hand-off queue.  A queue entry is an accepted connection:
raw fd, the outcome of the accepted stream's `local_addr` query (already
mapped through `from_tokio_error`), and the peer's remote address as handed
over by the accept-loop task. -/

/-- One accepted connection waiting in the hand-off queue. -/
structure AcceptedConn where
  fd : Nat
  localAddr : Except Nat SocketAddr
  remoteAddr : SocketAddr

/-- What `SyncOperation::SocketAccept` produced: the error if any, the
brand-new Connected socket if one was materialized, the hand-off queue
afterwards, and the listening socket's state afterwards (the operation never
reads or writes it). -/
structure AcceptResult where
  err : Option Nat
  created : Option AbstractTcpSocketInner
  queueAfter : List AcceptedConn
  listenerAfter : AbstractTcpSocketInner

/-- Embedding of `SyncOperation::SocketAccept`.  An empty queue makes
`try_recv` fail and the operation returns `__WASI_EAGAIN` at once; otherwise
the head entry is dequeued, a new `Stream` socket carrying the peer's remote
address is created and installed in the descriptor table, and the remote
address is encoded into the caller's sockaddr buffer (whose size may be
insufficient, in which case the encode error is returned after the socket
was already created).  The listening socket is never touched. -/
def socketAccept (queue : List AcceptedConn) (sockaddr_size : Nat)
    (listener : AbstractTcpSocketInner) : AcceptResult :=
  match queue with
  | [] => ⟨some EAGAIN, none, [], listener⟩
  | c :: rest =>
      match c.localAddr with
      | .error e => ⟨some e, none, rest, listener⟩
      | .ok la =>
          let sock := AbstractTcpSocketInner.stream ⟨c.fd, la, some c.remoteAddr⟩
          match encode_socket_addr sockaddr_size c.remoteAddr with
          | .error e => ⟨some e, some sock, rest, listener⟩
          | .ok _ => ⟨none, some sock, rest, listener⟩

/-! ## Oneshot completion versus cancellation, per token

Interleaving model of one spawned oneshot operation (`spawn_oneshot`) racing
with `SyncOperation::Cancel` calls for its token.  The task thread executes
three sequential steps, taken from the `runtime.spawn` body:
`resolve` — the `Abortable::new(fut, reg).await` returns, yielding the
future's value if the abort signal has not been raised and the distinguished
`__WASI_ECANCELED` outcome otherwise; `remove` — the task removes the token
from the `ongoing` map, ignoring whether the entry was still there; `send` —
the completion is pushed onto the cross-thread `completed_tx` channel.
`cancel` events may run on the dispatch thread at any point: a cancel
atomically removes the map entry, and succeeds (raising the abort signal)
exactly when the entry was still present, failing `__WASI_EINVAL`
otherwise.  `rv` is the value the future resolves to naturally. -/

/-- Events in the per-token interleaving: the task's three ordered steps and
dispatch-thread cancel calls. -/
inductive CancelEv where
  | resolve
  | remove
  | send
  | cancel
deriving DecidableEq, Repr

/-- Shared state for one token: whether the token is still in the `ongoing`
map, whether the abort signal has been raised, what the `Abortable` await
resolved to (`some true` = natural value, `some false` = aborted), the
completions pushed to the channel, and the counts of successful and failed
cancel calls. -/
structure CancelState where
  inMap : Bool
  abortFlag : Bool
  resolved : Option Bool
  sent : List Nat
  cancelOks : Nat
  cancelFails : Nat
deriving DecidableEq, Repr

/-- State after `enqueue_oneshot` returned the token: the abort handle was
inserted into `ongoing` before the task was spawned, nothing has resolved,
nothing was sent, no cancel has been attempted. -/
def cancelInit : CancelState :=
  ⟨true, false, none, [], 0, 0⟩

/-- One interleaving step.  `rv` is the future's natural result value. -/
def cancelStep (rv : Nat) (s : CancelState) : CancelEv → CancelState
  | .resolve => { s with resolved := some (!s.abortFlag) }
  | .remove => { s with inMap := false }
  | .send =>
      { s with
        sent := s.sent ++ [match s.resolved with
          | some true => rv
          | _ => ECANCELED] }
  | .cancel =>
      if s.inMap then
        { s with inMap := false, abortFlag := true, cancelOks := s.cancelOks + 1 }
      else
        { s with cancelFails := s.cancelFails + 1 }

/-- Run a whole interleaving from the post-enqueue state. -/
def cancelRun (rv : Nat) (t : List CancelEv) : CancelState :=
  t.foldl (cancelStep rv) cancelInit

/-- A valid interleaving: the task's three steps occur exactly once each, in
program order, with any number of cancel calls before, between and after
them. -/
def cancelShape (k1 k2 k3 k4 : Nat) : List CancelEv :=
  List.replicate k1 .cancel ++ [.resolve] ++ List.replicate k2 .cancel ++
    [.remove] ++ List.replicate k3 .cancel ++ [.send] ++ List.replicate k4 .cancel

/-- A trace is valid when it is some interleaving of the task's three
ordered steps with cancel calls. -/
def ValidCancelTrace (t : List CancelEv) : Prop :=
  ∃ k1 k2 k3 k4, t = cancelShape k1 k2 k3 k4

/-- Is this event a dispatch-thread cancel call? -/
def isCancelEv : CancelEv → Bool
  | .cancel => true
  | _ => false

/-! ## Executor state: token allocation and completion queues

Embedding of `ExecutorState` / `TokioExecutor`: the `ongoing_next` token
allocator (an `AtomicU64` starting from 1, `fetch_add(1)` per spawned
operation, so arithmetic is modulo `2^64`), the set of tokens present in the
`ongoing` map, the thread-local `local_completion` queue and the
cross-thread `completed_tx/rx` channel.  A completion record is a
`(result_code, user_context)` pair. -/

/-- Executor bookkeeping state. -/
structure ExecState where
  ongoingNext : Nat
  ongoing : List Nat
  localQ : List (Nat × Nat)
  chanQ : List (Nat × Nat)
deriving DecidableEq, Repr

/-- `TokioExecutor::new`: `ongoing_next` starts at 1 (index 0 is reserved
for "null"), everything empty. -/
def initExecState : ExecState := ⟨1, [], [], []⟩

/-- `TokioExecutor::spawn_oneshot`: `fetch_add` the token counter (u64
arithmetic), insert the fresh token into `ongoing`, return the token. -/
def spawnOneshot (s : ExecState) : Nat × ExecState :=
  (s.ongoingNext,
    { s with ongoingNext := (s.ongoingNext + 1) % 2 ^ 64,
             ongoing := s.ongoing ++ [s.ongoingNext] })

/-- The oneshot operations of `AsyncOneshotOperation`, as far as token
allocation is concerned.  `Nop` resolves synchronously.  `Read`, `Write`,
`SocketPreAccept` and `SocketConnect` first resolve the descriptor (and for
connect decode the sockaddr), which can fail before anything is spawned:
`pre = some e` models that early failure with error `e`.  `Delay` and
`DnsLookup` always spawn. -/
inductive OneshotOp where
  | nop
  | delay
  | read (pre : Option Nat)
  | write (pre : Option Nat)
  | socketPreAccept (pre : Option Nat)
  | socketConnect (pre : Option Nat)
  | dnsLookup
deriving DecidableEq, Repr

/-- Does this operation reach `spawn_oneshot` (as opposed to completing
synchronously or failing before the spawn)? -/
def OneshotOp.spawns : OneshotOp → Bool
  | .nop => false
  | .delay | .dnsLookup => true
  | .read pre | .write pre | .socketPreAccept pre | .socketConnect pre => pre.isNone

/-- Embedding of `TokioExecutor::enqueue_oneshot`: `Nop` computes its
immediate result `0`, pushes `(0, user_context)` onto the thread-local
completion queue and returns `CancellationToken(0)`; the other operations
either fail before spawning (returning the early error) or spawn and return
the fresh nonzero token. -/
def enqueueOneshot (op : OneshotOp) (uc : Nat) (s : ExecState) :
    Except Nat Nat × ExecState :=
  match op with
  | .nop => (.ok 0, { s with localQ := s.localQ ++ [(0, uc)] })
  | .delay | .dnsLookup =>
      let r := spawnOneshot s
      (.ok r.1, r.2)
  | .read pre | .write pre | .socketPreAccept pre | .socketConnect pre =>
      match pre with
      | some e => (.error e, s)
      | none =>
          let r := spawnOneshot s
          (.ok r.1, r.2)

/-- A sequence of `enqueue_oneshot` calls: final state and the list of
per-call results. -/
def runOps (ops : List (OneshotOp × Nat)) (s : ExecState) :
    ExecState × List (Except Nat Nat) :=
  match ops with
  | [] => (s, [])
  | (op, uc) :: rest =>
      let r := enqueueOneshot op uc s
      let t := runOps rest r.2
      (t.1, r.1 :: t.2)

/-- How many of these operations spawn an asynchronous task. -/
def countSpawns (ops : List (OneshotOp × Nat)) : Nat :=
  (ops.filter (fun p => p.1.spawns)).length

/-- The nonzero (asynchronously allocated) cancellation tokens returned by a
sequence of enqueues. -/
def issuedTokens (ops : List (OneshotOp × Nat)) : List Nat :=
  (runOps ops initExecState).2.filterMap (fun r =>
    match r with
    | .ok t => if t = 0 then none else some t
    | .error _ => none)

/-- Embedding of `TokioExecutor::wait`: pop the thread-local completion
queue first; only when it is empty receive from the cross-thread channel
(which blocks while the channel is empty — modelled by `none`). -/
def waitNext (s : ExecState) : Option ((Nat × Nat) × ExecState) :=
  match s.localQ with
  | c :: rest => some (c, { s with localQ := rest })
  | [] =>
      match s.chanQ with
      | c :: rest => some (c, { s with chanQ := rest })
      | [] => none

/-! ## sock_send_file: chunked copy loop

Embedding of `sock_send_file`.  The destination socket is modelled as
accepting every chunk in full (`socket.send(data)` returns `data.len()`),
so the accumulated return value is the total number of bytes read from the
source.  The source descriptor carries its fd number (0/1/2 are the
standard streams), its `FD_READ` right and its inode `Kind`; `file`,
`buffer` read at the descriptor's offset (a `file` handle seeks to the
offset before each read, so a read beyond end-of-file yields 0 bytes, while
a `buffer` source slices `&buffer[offset..]`, which panics when the offset
exceeds the buffer length); `socketK` and `pipe` consume their own byte
stream and ignore the offset.  `symlink` hits `unimplemented!` in the
source, modelled as a panic outcome. -/

/-- The inode kinds a source descriptor can have, with the byte contents
for the readable ones. -/
inductive SrcKind where
  | file (data : List Nat)
  | fileNoHandle
  | socketK (data : List Nat)
  | pipe (data : List Nat)
  | dir
  | root
  | symlink
  | eventNotifications
  | buffer (data : List Nat)
deriving DecidableEq, Repr

/-- A source descriptor: fd number, `FD_READ` right, current byte offset
and inode kind. -/
structure SrcDesc where
  fd : Nat
  hasRead : Bool
  offset : Nat
  kind : SrcKind
deriving DecidableEq, Repr

/-- Outcome of `sock_send_file`: success writes the transmitted count back
to the guest (`chunks` records the sizes of the individual reads); an errno
return leaves the count unwritten; `panicked` marks reaching a
host-language panic. -/
inductive SfResult where
  | success (total : Nat) (chunks : List Nat)
  | errno (e : Nat)
  | panicked
deriving DecidableEq, Repr

/-- The `while (count > 0)` loop of `sock_send_file`: take
`sub_count = min(count, 4096)`, read up to `sub_count` bytes from the
source (per-kind semantics as in the source match), advance the
descriptor's offset by the bytes actually read, send the chunk to the
socket and accumulate the bytes written. -/
def sendFileLoop (stdin : List Nat) (src : SrcDesc) (count total : Nat)
    (chunks : List Nat) : SfResult :=
  if h : count = 0 then .success total chunks
  else
    let sub := min count 4096
    if src.fd = 0 then
      let amt := min sub stdin.length
      sendFileLoop (stdin.drop amt) src (count - sub) (total + amt) (chunks ++ [amt])
    else if src.fd = 1 ∨ src.fd = 2 then .errno EINVAL
    else if src.hasRead = false then .errno EACCES
    else
      match src.kind with
      | .file data =>
          let amt := min sub (data.length - src.offset)
          sendFileLoop stdin { src with offset := src.offset + amt } (count - sub)
            (total + amt) (chunks ++ [amt])
      | .fileNoHandle => .errno EINVAL
      | .socketK data =>
          let amt := min sub data.length
          sendFileLoop stdin
            { src with offset := src.offset + amt, kind := .socketK (data.drop amt) }
            (count - sub) (total + amt) (chunks ++ [amt])
      | .pipe data =>
          let amt := min sub data.length
          sendFileLoop stdin
            { src with offset := src.offset + amt, kind := .pipe (data.drop amt) }
            (count - sub) (total + amt) (chunks ++ [amt])
      | .dir => .errno EISDIR
      | .root => .errno EISDIR
      | .eventNotifications => .errno EINVAL
      | .symlink => .panicked
      | .buffer data =>
          if data.length < src.offset then .panicked
          else
            let amt := min sub (data.length - src.offset)
            sendFileLoop stdin { src with offset := src.offset + amt } (count - sub)
              (total + amt) (chunks ++ [amt])
termination_by count
decreasing_by all_goals omega

/-- Embedding of `sock_send_file`: store the caller-provided offset into
the descriptor, then run the chunked copy loop; on success the accumulated
total is written back as the transmitted count. -/
def sock_send_file (stdin : List Nat) (src : SrcDesc) (offset count : Nat) : SfResult :=
  sendFileLoop stdin { src with offset := offset } count 0 []

/-- The host I/O error kinds (`std::io::ErrorKind` as re-exported by tokio
0.2, the variants the source's mapping distinguishes plus the catch-all
`other`). -/
inductive IoErrorKind where
  | notFound
  | permissionDenied
  | connectionRefused
  | connectionReset
  | connectionAborted
  | notConnected
  | addrInUse
  | addrNotAvailable
  | brokenPipe
  | alreadyExists
  | wouldBlock
  | invalidInput
  | invalidData
  | timedOut
  | writeZero
  | interrupted
  | unexpectedEof
  | other
deriving DecidableEq, Repr

/-- Embedding of `from_tokio_error`: the fixed errno mapping table, with the
wildcard arm sending every unmapped kind to `__WASI_EINVAL`. -/
def from_tokio_error : IoErrorKind → Nat
  | .notFound => EEXIST
  | .permissionDenied => EPERM
  | .connectionRefused => ECONNREFUSED
  | .connectionReset => ECONNRESET
  | .connectionAborted => ECONNABORTED
  | .notConnected => ENOTCONN
  | .addrInUse => EADDRINUSE
  | .addrNotAvailable => EADDRNOTAVAIL
  | .brokenPipe => EPIPE
  | .alreadyExists => EEXIST
  | .wouldBlock => EAGAIN
  | .invalidInput => EINVAL
  | .invalidData => EINVAL
  | .timedOut => ETIMEDOUT
  | .writeZero => EINVAL
  | .interrupted => EAGAIN
  | .unexpectedEof => EIO
  | .other => EINVAL

/-! ## Theorems -/

/-- Swapping the two bytes of a 16-bit value twice is the identity. -/
theorem u16ToBe_involutive {n : Nat} (h : n < 65536) : u16ToBe (u16ToBe n) = n := by
  unfold u16ToBe
  have h2 : n / 256 < 256 := by omega
  rw [Nat.mod_eq_of_lt h2]
  have e1 : (n % 256 * 256 + n / 256) % 256 = n / 256 := by
    simp [Nat.add_mod, Nat.mul_mod_left, Nat.mod_eq_of_lt h2]
  have e2 : (n % 256 * 256 + n / 256) / 256 = n % 256 := by
    rw [Nat.mul_comm, Nat.mul_add_div (by norm_num : (0:Nat) < 256),
      Nat.div_eq_of_lt h2, Nat.add_zero]
  rw [e1, e2]
  omega

/-- Claim C3: encoding a valid IPv4 address-and-port into the 16-byte
`sockaddr_in` wire struct and decoding it back at size 16 reproduces the
address and port exactly; likewise a valid IPv6 address-and-port through the
28-byte `sockaddr_in6` struct (the decoded flow info and scope id are the
zeros the encoder wrote, and the address octets and port are reproduced
exactly). -/
theorem c3_sockaddr_roundtrip (ip4 ip6 : List Nat) (p4 p6 f s : Nat)
    (h4 : p4 < 65536) (h6 : p6 < 65536) :
    encodeThenDecode 16 (.v4 ip4 p4) = .ok (.v4 ip4 p4) ∧
    ∃ r, encodeThenDecode 28 (.v6 ip6 p6 f s) = .ok r ∧
      r.ipPort = (SocketAddr.v6 ip6 p6 f s).ipPort := by
  refine ⟨?_, ⟨.v6 ip6 p6 0 0, ?_, rfl⟩⟩
  · simp [encodeThenDecode, encode_socket_addr, decode_socket_addr,
      u16ToBe_involutive h4]
  · simp [encodeThenDecode, encode_socket_addr, decode_socket_addr,
      u16ToBe_involutive h6]

/-- Witness for C3 at a concrete address and port. -/
theorem c3_sockaddr_roundtrip_witness :
    (80 : Nat) < 65536 ∧ (443 : Nat) < 65536 ∧
    (encodeThenDecode 16 (.v4 [127, 0, 0, 1] 80) = .ok (.v4 [127, 0, 0, 1] 80) ∧
      ∃ r, encodeThenDecode 28
          (.v6 [0, 0, 0, 0, 0, 0, 0, 0, 0, 0, 0, 0, 0, 0, 0, 1] 443 7 9) = .ok r ∧
        r.ipPort =
          (SocketAddr.v6 [0, 0, 0, 0, 0, 0, 0, 0, 0, 0, 0, 0, 0, 0, 0, 1] 443 7 9).ipPort) :=
  ⟨by decide, by decide,
    c3_sockaddr_roundtrip [127, 0, 0, 1] [0, 0, 0, 0, 0, 0, 0, 0, 0, 0, 0, 0, 0, 0, 0, 1]
      80 443 7 9 (by decide) (by decide)⟩

/-- Counterexample to claim C4: the encode path does not reject every size
other than 16 and 28.  Encoding a V4 address at size 17, strictly between
16 and 28, succeeds with actual length 16 rather than failing
`__WASI_EINVAL`, because `encode_socket_addr` only checks a lower bound. -/
theorem c4_counterexample :
    encode_socket_addr 17 (.v4 [127, 0, 0, 1] 80) =
      .ok (.inl ⟨AF_INET, u16ToBe 80, [127, 0, 0, 1], List.replicate 8 0⟩, 16) ∧
    ∀ e, encode_socket_addr 17 (.v4 [127, 0, 0, 1] 80) ≠ .error e := by
  refine ⟨rfl, fun e h => ?_⟩
  simp [encode_socket_addr] at h

/-- Claim C4 as amended: the decode path rejects every size other than
exactly 16 or 28 with `__WASI_EINVAL`; the encode path treats the size as a
minimum capacity, failing `__WASI_EINVAL` exactly when the size is below 16
for a V4 address or below 28 for a V6 address, and succeeding (with actual
lengths 16 and 28 respectively) for any larger size — in particular sizes
strictly between 16 and 28 are rejected by decode but accepted by the V4
encode path. -/
theorem c4_exact_sizes (sz : Nat) (m4 : SockaddrIn) (m6 : SockaddrIn6)
    (ip : List Nat) (p f s : Nat) :
    (sz ≠ 16 → sz ≠ 28 → decode_socket_addr sz m4 m6 = .error EINVAL) ∧
    (sz < 16 → encode_socket_addr sz (.v4 ip p) = .error EINVAL) ∧
    (16 ≤ sz → encode_socket_addr sz (.v4 ip p) =
      .ok (.inl ⟨AF_INET, u16ToBe p, ip, List.replicate 8 0⟩, 16)) ∧
    (sz < 28 → encode_socket_addr sz (.v6 ip p f s) = .error EINVAL) ∧
    (28 ≤ sz → encode_socket_addr sz (.v6 ip p f s) =
      .ok (.inr ⟨AF_INET6, u16ToBe p, 0, ip, 0⟩, 28)) := by
  refine ⟨fun h16 h28 => ?_, fun h => ?_, fun h => ?_, fun h => ?_, fun h => ?_⟩
  · unfold decode_socket_addr
    split <;> simp_all
  · simp [encode_socket_addr, h]
  · simp [encode_socket_addr, Nat.not_lt.mpr h]
  · simp [encode_socket_addr, h]
  · simp [encode_socket_addr, Nat.not_lt.mpr h]

/-- Witness for the amended C4 at size 20 (between the two exact sizes):
decode rejects it, V4 encode accepts it. -/
theorem c4_exact_sizes_witness :
    decode_socket_addr 20 ⟨0, 0, [], []⟩ ⟨0, 0, 0, [], 0⟩ = .error EINVAL ∧
    encode_socket_addr 20 (.v4 [10, 0, 0, 1] 8080) =
      .ok (.inl ⟨AF_INET, u16ToBe 8080, [10, 0, 0, 1], List.replicate 8 0⟩, 16) :=
  ⟨(c4_exact_sizes 20 ⟨0, 0, [], []⟩ ⟨0, 0, 0, [], 0⟩ [10, 0, 0, 1] 8080 0 0).1
      (by decide) (by decide),
    (c4_exact_sizes 20 ⟨0, 0, [], []⟩ ⟨0, 0, 0, [], 0⟩ [10, 0, 0, 1] 8080 0 0).2.2.1
      (by decide)⟩

/-- Claim C2: socket lifecycle transitions follow exactly
Unbound → Bound → {Listening, Connected}.  Bind on a non-Unbound socket,
listen on a non-Bound socket and connect on a Listening or Connected socket
all fail `__WASI_EINVAL` with the state unchanged; conversely bind succeeds
only from Unbound, listen only from Bound, and connect only from Unbound or
Bound. -/
theorem c2_socket_lifecycle (st : AbstractTcpSocketInner) (sz : Nat)
    (m4 : Option SockaddrIn) (m6 : Option SockaddrIn6)
    (host : Except Nat SocketMetadata) :
    (st.isUnbound = false → socketBind st sz m4 m6 = (st, some EINVAL)) ∧
    (st.isBound = false → socketListen st host = (st, some EINVAL)) ∧
    (st.isListening = true ∨ st.isStream = true →
      socketConnectTransition st host = (st, some EINVAL)) ∧
    ((socketBind st sz m4 m6).2 = none → st.isUnbound = true) ∧
    ((socketListen st host).2 = none → st.isBound = true) ∧
    ((socketConnectTransition st host).2 = none →
      st.isUnbound = true ∨ st.isBound = true) := by
  cases st <;>
    simp [socketBind, socketListen, socketConnectTransition,
      AbstractTcpSocketInner.isUnbound, AbstractTcpSocketInner.isBound,
      AbstractTcpSocketInner.isListening, AbstractTcpSocketInner.isStream] <;>
    constructor <;>
    first
      | (intro h; cases host <;> simp_all)
      | (constructor <;>
          first
            | (intro h; cases host <;> simp_all)
            | (intro h
               split at h <;> simp_all)
            | (split <;> simp_all))

/-- Witness for C2: a listening socket refuses bind with `__WASI_EINVAL`
and keeps its state, and a successful bind implies the socket was
Unbound. -/
theorem c2_socket_lifecycle_witness :
    socketBind (.listening ⟨3, .v4 [0, 0, 0, 0] 80, none⟩) 16
        (some ⟨AF_INET, 0, [0, 0, 0, 0], []⟩) none =
      (.listening ⟨3, .v4 [0, 0, 0, 0] 80, none⟩, some EINVAL) ∧
    AbstractTcpSocketInner.isUnbound .undefined4 = true :=
  ⟨(c2_socket_lifecycle (.listening ⟨3, .v4 [0, 0, 0, 0] 80, none⟩) 16
        (some ⟨AF_INET, 0, [0, 0, 0, 0], []⟩) none (.error 0)).1 (by decide),
    (c2_socket_lifecycle .undefined4 16 (some ⟨AF_INET, 0, [0, 0, 0, 0], []⟩) none
        (.error 0)).2.2.2.1 (by simp [socketBind])⟩

/-- Claim C8: the accept poll never blocks beyond a non-blocking poll of the
capacity-1 hand-off queue — on an empty queue it returns `__WASI_EAGAIN`
immediately with nothing created; on a pending connection it dequeues
exactly that entry and materializes a brand-new Connected (`Stream`) socket
whose metadata carries the peer's remote address; and in every case the
listening socket's own state is left unchanged. -/
theorem c8_accept_poll (queue : List AcceptedConn) (sz : Nat)
    (listener : AbstractTcpSocketInner) :
    (queue = [] →
      socketAccept queue sz listener = ⟨some EAGAIN, none, queue, listener⟩) ∧
    (∀ c rest, queue = c :: rest →
      (socketAccept queue sz listener).queueAfter = rest ∧
      ∀ la, c.localAddr = .ok la →
        (socketAccept queue sz listener).created =
          some (.stream ⟨c.fd, la, some c.remoteAddr⟩)) ∧
    (socketAccept queue sz listener).listenerAfter = listener := by
  refine ⟨fun h => by subst h; rfl, fun c rest h => ?_, ?_⟩
  · subst h
    refine ⟨?_, fun la hla => ?_⟩
    · cases hc : c.localAddr <;>
        simp [socketAccept, hc] <;> split <;> rfl
    · simp only [socketAccept, hla]
      split <;> rfl
  · cases queue with
    | nil => rfl
    | cons c rest =>
        cases hc : c.localAddr <;> simp [socketAccept, hc] <;> split <;> rfl

/-- Witness for C8: polling with one pending connection dequeues it and
creates the Connected socket carrying the peer address; the listener state
passes through untouched. -/
theorem c8_accept_poll_witness :
    (socketAccept [⟨7, .ok (.v4 [127, 0, 0, 1] 4000), .v4 [10, 0, 0, 2] 5000⟩] 16
        .undefined4).queueAfter = [] ∧
    (socketAccept [⟨7, .ok (.v4 [127, 0, 0, 1] 4000), .v4 [10, 0, 0, 2] 5000⟩] 16
        .undefined4).created =
      some (.stream ⟨7, .v4 [127, 0, 0, 1] 4000, some (.v4 [10, 0, 0, 2] 5000)⟩) :=
  ⟨((c8_accept_poll [⟨7, .ok (.v4 [127, 0, 0, 1] 4000), .v4 [10, 0, 0, 2] 5000⟩] 16
        .undefined4).2.1 _ _ rfl).1,
    ((c8_accept_poll [⟨7, .ok (.v4 [127, 0, 0, 1] 4000), .v4 [10, 0, 0, 2] 5000⟩] 16
        .undefined4).2.1 _ _ rfl).2 _ rfl⟩

/-- A run of cancel calls while the token is absent from the map: every one
fails. -/
theorem cancels_when_absent (rv k : Nat) (b : Bool) (c : Option Bool)
    (d : List Nat) (e : Nat) : ∀ f : Nat,
    List.foldl (cancelStep rv) ⟨false, b, c, d, e, f⟩ (List.replicate k .cancel) =
      ⟨false, b, c, d, e, f + k⟩ := by
  induction k with
  | zero => intro f; simp
  | succ k ih =>
      intro f
      rw [List.replicate_succ, List.foldl_cons,
        show cancelStep rv ⟨false, b, c, d, e, f⟩ .cancel = ⟨false, b, c, d, e, f + 1⟩
          from rfl, ih]
      simp [CancelState.mk.injEq] <;> omega

/-- A nonempty run of cancel calls while the token is in the map: the first
succeeds (removing the entry and raising the abort signal), the rest
fail. -/
theorem cancels_when_present (rv k : Nat) (b : Bool) (c : Option Bool)
    (d : List Nat) (e f : Nat) (hk : 1 ≤ k) :
    List.foldl (cancelStep rv) ⟨true, b, c, d, e, f⟩ (List.replicate k .cancel) =
      ⟨false, true, c, d, e + 1, f + (k - 1)⟩ := by
  cases k with
  | zero => omega
  | succ k =>
      rw [List.replicate_succ, List.foldl_cons,
        show cancelStep rv ⟨true, b, c, d, e, f⟩ .cancel =
          ⟨false, true, c, d, e + 1, f⟩ from rfl,
        cancels_when_absent]
      rfl

/-- Counterexample to claim C1: a successful cancel can coexist with a
non-Canceled completion.  In the valid interleaving where the future
resolves naturally, then a cancel call lands before the task has removed the
token from the `ongoing` map, the cancel finds the entry, removes it and
returns success — yet the task still delivers the natural (non-Canceled)
completion, because the abort signal arrived after the `Abortable` await had
already resolved.  Both outcomes are observed for the same token. -/
theorem c1_counterexample :
    ValidCancelTrace [.resolve, .cancel, .remove, .send] ∧
    (cancelRun 0 [.resolve, .cancel, .remove, .send]).cancelOks = 1 ∧
    (cancelRun 0 [.resolve, .cancel, .remove, .send]).sent = [0] ∧
    (0 : Nat) ≠ ECANCELED :=
  ⟨⟨0, 1, 0, 0, by decide⟩, by decide, by decide, by decide⟩

/-- Claim C1 as amended: for every valid interleaving of an enqueued oneshot
task with cancel calls, exactly one completion is delivered for the token
and at most one cancel call succeeds; a cancel that succeeds before the
future resolves forces the Canceled completion; if no cancel succeeds the
natural completion is delivered; but the two outcomes are not mutually
exclusive — a successful cancel coexists with the natural completion exactly
when the first successful cancel lands in the window between the future's
natural resolution and the task's removal of the token from the bookkeeping
map. -/
theorem c1_cancel_exclusivity (rv : Nat) (hrv : rv ≠ ECANCELED)
    (t : List CancelEv) (ht : ValidCancelTrace t) :
    (cancelRun rv t).sent.length = 1 ∧
    (cancelRun rv t).cancelOks ≤ 1 ∧
    (∀ k1 k2 k3 k4, t = cancelShape k1 k2 k3 k4 → 1 ≤ k1 →
      (cancelRun rv t).sent = [ECANCELED] ∧ (cancelRun rv t).cancelOks = 1) ∧
    ((cancelRun rv t).cancelOks = 0 → (cancelRun rv t).sent = [rv]) ∧
    (∀ k1 k2 k3 k4, t = cancelShape k1 k2 k3 k4 →
      ((cancelRun rv t).cancelOks = 1 ∧ (cancelRun rv t).sent = [rv] ↔
        k1 = 0 ∧ 1 ≤ k2)) := by
  obtain ⟨k1, k2, k3, k4, rfl⟩ := ht
  have run_eval : ∀ j1 j2 j3 j4, cancelRun rv (cancelShape j1 j2 j3 j4) =
      if j1 = 0 then
        (if j2 = 0 then
          ⟨false, false, some true, [rv], 0, j3 + j4⟩
        else
          ⟨false, true, some true, [rv], 1, (j2 - 1) + j3 + j4⟩)
      else
        ⟨false, true, some false, [ECANCELED], 1, (j1 - 1) + j2 + j3 + j4⟩ := by
    intro j1 j2 j3 j4
    unfold cancelRun cancelShape
    rw [List.foldl_append, List.foldl_append, List.foldl_append, List.foldl_append,
      List.foldl_append, List.foldl_append]
    simp only [List.foldl_cons, List.foldl_nil]
    rw [show cancelInit = (⟨true, false, none, [], 0, 0⟩ : CancelState) from rfl]
    by_cases h1 : j1 = 0
    · subst h1
      simp only [List.replicate_zero, List.foldl_nil]
      rw [show cancelStep rv ⟨true, false, none, [], 0, 0⟩ .resolve =
          ⟨true, false, some true, [], 0, 0⟩ from rfl]
      by_cases h2 : j2 = 0
      · subst h2
        simp only [List.replicate_zero, List.foldl_nil]
        rw [show cancelStep rv ⟨true, false, some true, [], 0, 0⟩ .remove =
            ⟨false, false, some true, [], 0, 0⟩ from rfl,
          cancels_when_absent,
          show cancelStep rv ⟨false, false, some true, [], 0, 0 + j3⟩ .send =
            ⟨false, false, some true, [rv], 0, 0 + j3⟩ from rfl,
          cancels_when_absent]
        simp [CancelState.mk.injEq] <;> omega
      · rw [cancels_when_present rv j2 false (some true) [] 0 0 (by omega),
          show cancelStep rv ⟨false, true, some true, [], 0 + 1, 0 + (j2 - 1)⟩ .remove =
            ⟨false, true, some true, [], 0 + 1, 0 + (j2 - 1)⟩ from rfl,
          cancels_when_absent,
          show cancelStep rv ⟨false, true, some true, [], 0 + 1, 0 + (j2 - 1) + j3⟩ .send =
            ⟨false, true, some true, [rv], 0 + 1, 0 + (j2 - 1) + j3⟩ from rfl,
          cancels_when_absent]
        simp [h2, CancelState.mk.injEq] <;> omega
    · rw [cancels_when_present rv j1 false none [] 0 0 (by omega),
        show cancelStep rv ⟨false, true, none, [], 0 + 1, 0 + (j1 - 1)⟩ .resolve =
          ⟨false, true, some false, [], 0 + 1, 0 + (j1 - 1)⟩ from rfl,
        cancels_when_absent,
        show cancelStep rv ⟨false, true, some false, [], 0 + 1, 0 + (j1 - 1) + j2⟩ .remove =
          ⟨false, true, some false, [], 0 + 1, 0 + (j1 - 1) + j2⟩ from rfl,
        cancels_when_absent,
        show cancelStep rv
            ⟨false, true, some false, [], 0 + 1, 0 + (j1 - 1) + j2 + j3⟩ .send =
          ⟨false, true, some false, [ECANCELED], 0 + 1, 0 + (j1 - 1) + j2 + j3⟩ from rfl,
        cancels_when_absent]
      simp [h1, CancelState.mk.injEq] <;> omega
  have shape_inj : ∀ j1 j2 j3 j4,
      cancelShape k1 k2 k3 k4 = cancelShape j1 j2 j3 j4 →
      j1 = k1 ∧ j2 = k2 := by
    intro j1 j2 j3 j4 hsh
    have count1 : ∀ a1 a2 a3 a4, ((cancelShape a1 a2 a3 a4).takeWhile
        isCancelEv).length = a1 := by
      intro a1 a2 a3 a4
      unfold cancelShape
      induction a1 with
      | zero => simp [List.takeWhile_cons, isCancelEv]
      | succ n ih =>
          rw [List.replicate_succ]
          simp only [List.cons_append, List.takeWhile_cons]
          simpa [isCancelEv] using ih
    have hj1 : j1 = k1 := by
      have := count1 k1 k2 k3 k4
      rw [hsh, count1] at this
      omega
    subst hj1
    have tails_eq : List.replicate k2 CancelEv.cancel ++ [CancelEv.remove] ++
        List.replicate k3 CancelEv.cancel ++ [CancelEv.send] ++
        List.replicate k4 CancelEv.cancel =
        List.replicate j2 CancelEv.cancel ++ [CancelEv.remove] ++
        List.replicate j3 CancelEv.cancel ++ [CancelEv.send] ++
        List.replicate j4 CancelEv.cancel := by
      unfold cancelShape at hsh
      have := List.append_cancel_left
        (by simpa [List.append_assoc] using hsh :
          List.replicate j1 CancelEv.cancel ++
            ([CancelEv.resolve] ++ (List.replicate k2 CancelEv.cancel ++
              ([CancelEv.remove] ++ (List.replicate k3 CancelEv.cancel ++
                ([CancelEv.send] ++ List.replicate k4 CancelEv.cancel))))) =
          List.replicate j1 CancelEv.cancel ++
            ([CancelEv.resolve] ++ (List.replicate j2 CancelEv.cancel ++
              ([CancelEv.remove] ++ (List.replicate j3 CancelEv.cancel ++
                ([CancelEv.send] ++ List.replicate j4 CancelEv.cancel))))))
      have := List.append_cancel_left
        (by simpa using this :
          [CancelEv.resolve] ++ (List.replicate k2 CancelEv.cancel ++
            ([CancelEv.remove] ++ (List.replicate k3 CancelEv.cancel ++
              ([CancelEv.send] ++ List.replicate k4 CancelEv.cancel)))) =
          [CancelEv.resolve] ++ (List.replicate j2 CancelEv.cancel ++
            ([CancelEv.remove] ++ (List.replicate j3 CancelEv.cancel ++
              ([CancelEv.send] ++ List.replicate j4 CancelEv.cancel)))))
      simpa [List.append_assoc] using this
    have count2 : ∀ b2 b3 b4, ((List.replicate b2 CancelEv.cancel ++ [CancelEv.remove] ++
        List.replicate b3 CancelEv.cancel ++ [CancelEv.send] ++
        List.replicate b4 CancelEv.cancel).takeWhile
          isCancelEv).length = b2 := by
      intro b2 b3 b4
      induction b2 with
      | zero => simp [List.takeWhile_cons, isCancelEv]
      | succ n ih =>
          rw [List.replicate_succ]
          simp only [List.cons_append, List.takeWhile_cons]
          simpa [isCancelEv] using ih
    have := count2 k2 k3 k4
    rw [tails_eq, count2] at this
    omega
  rw [run_eval k1 k2 k3 k4]
  by_cases h1 : k1 = 0
  · by_cases h2 : k2 = 0
    · rw [if_pos h1, if_pos h2]
      refine ⟨rfl, Nat.zero_le 1, fun j1 j2 j3 j4 hsh hj => ?_, fun _ => rfl,
        fun j1 j2 j3 j4 hsh => ⟨fun hc => ?_, fun hc => ?_⟩⟩
      · have := (shape_inj j1 j2 j3 j4 hsh).1
        omega
      · exfalso
        have hc1 := hc.1
        simp at hc1
      · have := (shape_inj j1 j2 j3 j4 hsh).2
        omega
    · rw [if_pos h1, if_neg h2]
      refine ⟨rfl, Nat.le_refl 1, fun j1 j2 j3 j4 hsh hj => ?_, fun hc => ?_,
        fun j1 j2 j3 j4 hsh => ⟨fun _ => ?_, fun _ => ⟨rfl, rfl⟩⟩⟩
      · have := (shape_inj j1 j2 j3 j4 hsh).1
        omega
      · simp at hc
      · have := shape_inj j1 j2 j3 j4 hsh
        omega
  · rw [if_neg h1]
    refine ⟨rfl, Nat.le_refl 1, fun j1 j2 j3 j4 hsh hj => ⟨rfl, rfl⟩, fun hc => ?_,
      fun j1 j2 j3 j4 hsh => ⟨fun hc => ?_, fun hc => ?_⟩⟩
    · simp at hc
    · exfalso
      have hx := hc.2
      simp only [List.cons.injEq, and_true] at hx
      have hrv2 : rv ≠ 11 := by simpa [ECANCELED] using hrv
      simp [ECANCELED] at hx
      exact hrv2 hx.symm
    · have := (shape_inj j1 j2 j3 j4 hsh).1
      omega

/-- Witness for the amended C1 on the interleaving where a cancel precedes
the future's resolution: the Canceled completion is the single delivered
outcome and the one cancel succeeded. -/
theorem c1_cancel_exclusivity_witness :
    (0 : Nat) ≠ ECANCELED ∧ ValidCancelTrace (cancelShape 1 0 0 0) ∧
    (cancelRun 0 (cancelShape 1 0 0 0)).sent.length = 1 :=
  ⟨by decide, ⟨1, 0, 0, 0, rfl⟩,
    (c1_cancel_exclusivity 0 (by decide) (cancelShape 1 0 0 0) ⟨1, 0, 0, 0, rfl⟩).1⟩

/-- Invariant of a sequence of enqueues: the counter advances by one per
spawn, the nonzero tokens returned are the consecutive range starting at the
initial counter value, and a zero token is returned exactly for `Nop`. -/
theorem runOps_tokens (ops : List (OneshotOp × Nat)) :
    ∀ s : ExecState, s.ongoingNext + countSpawns ops < 2 ^ 64 → 1 ≤ s.ongoingNext →
      (runOps ops s).1.ongoingNext = s.ongoingNext + countSpawns ops ∧
      (runOps ops s).2.filterMap (fun r =>
        match r with
        | .ok t => if t = 0 then none else some t
        | .error _ => none) = List.range' s.ongoingNext (countSpawns ops) ∧
      ∀ p ∈ (runOps ops s).2.zip ops, (p.1 = .ok 0 ↔ p.2.1 = .nop) := by
  induction ops with
  | nil =>
      intro s hlt hpos
      refine ⟨by simp [runOps, countSpawns], by simp [runOps, countSpawns], ?_⟩
      simp [runOps]
  | cons hd tl ih =>
      intro s hlt hpos
      obtain ⟨op, uc⟩ := hd
      have hc : countSpawns ((op, uc) :: tl) =
          (if op.spawns then 1 else 0) + countSpawns tl := by
        simp only [countSpawns, List.filter_cons]
        split <;> simp <;> omega
      by_cases hsp : op.spawns = true
      · have hnext : (enqueueOneshot op uc s).2.ongoingNext = s.ongoingNext + 1 := by
          cases op <;> simp_all [OneshotOp.spawns, enqueueOneshot, spawnOneshot,
            Option.isNone_iff_eq_none] <;>
            first
              | omega
              | (rw [Nat.mod_eq_of_lt] <;> omega)
        have hres : (enqueueOneshot op uc s).1 = .ok s.ongoingNext := by
          cases op <;> simp_all [OneshotOp.spawns, enqueueOneshot, spawnOneshot,
            Option.isNone_iff_eq_none]
        have hcs : countSpawns ((op, uc) :: tl) = 1 + countSpawns tl := by
          rw [hc, if_pos hsp]
        have ihs := ih (enqueueOneshot op uc s).2
          (by rw [hnext]; omega) (by omega)
        rw [hnext] at ihs
        refine ⟨?_, ?_, ?_⟩
        · show (runOps tl (enqueueOneshot op uc s).2).1.ongoingNext = _
          rw [ihs.1, hcs]
          omega
        · show ((enqueueOneshot op uc s).1 ::
              (runOps tl (enqueueOneshot op uc s).2).2).filterMap _ = _
          rw [List.filterMap_cons, hres]
          have hnz : s.ongoingNext ≠ 0 := by omega
          simp only [if_neg hnz]
          rw [ihs.2.1, hcs]
          rw [show 1 + countSpawns tl = countSpawns tl + 1 by omega, List.range'_succ]
        · intro p hp
          simp only [runOps] at hp
          rw [List.zip_cons_cons] at hp
          rcases List.mem_cons.mp hp with h | h
          · subst h
            rw [hres]
            constructor
            · intro hx
              exfalso
              have : s.ongoingNext = 0 := by
                have := Except.ok.inj hx
                omega
              omega
            · intro hx
              exfalso
              have hx2 : op = OneshotOp.nop := hx
              rw [hx2] at hsp
              simp [OneshotOp.spawns] at hsp
          · exact ihs.2.2 p h
      · have hsf : op.spawns = false := by simpa using hsp
        have hcs : countSpawns ((op, uc) :: tl) = countSpawns tl := by
          rw [hc, hsf]
          simp
        by_cases hnop : op = .nop
        · subst hnop
          have ihs := ih { s with localQ := s.localQ ++ [(0, uc)] }
            (by simpa using (by rw [hcs] at hlt; exact hlt)) (by simpa using hpos)
          refine ⟨?_, ?_, ?_⟩
          · show (runOps tl _).1.ongoingNext = _
            rw [show (enqueueOneshot .nop uc s).2 =
              { s with localQ := s.localQ ++ [(0, uc)] } from rfl]
            rw [ihs.1, hcs]
          · show List.filterMap _
                (runOps tl { s with localQ := s.localQ ++ [(0, uc)] }).2 = _
            rw [ihs.2.1, hcs]
          · intro p hp
            simp only [runOps] at hp
            rw [List.zip_cons_cons] at hp
            rcases List.mem_cons.mp hp with h | h
            · subst h
              simp [enqueueOneshot]
            · exact ihs.2.2 p h
        · obtain ⟨e, he⟩ : ∃ e, enqueueOneshot op uc s = (.error e, s) := by
            cases op with
            | nop => exact absurd rfl hnop
            | delay => simp [OneshotOp.spawns] at hsf
            | dnsLookup => simp [OneshotOp.spawns] at hsf
            | read pre | write pre | socketPreAccept pre | socketConnect pre =>
                cases pre with
                | none => simp [OneshotOp.spawns] at hsf
                | some e => exact ⟨e, rfl⟩
          have ihs := ih s (by rw [hcs] at hlt; exact hlt) hpos
          refine ⟨?_, ?_, ?_⟩
          · show (runOps tl (enqueueOneshot op uc s).2).1.ongoingNext = _
            rw [he]
            rw [ihs.1, hcs]
          · show ((enqueueOneshot op uc s).1 ::
                (runOps tl (enqueueOneshot op uc s).2).2).filterMap _ = _
            rw [he]
            show List.filterMap _ (runOps tl s).2 = _
            rw [ihs.2.1, hcs]
          · intro p hp
            simp only [runOps] at hp
            rw [List.zip_cons_cons] at hp
            rcases List.mem_cons.mp hp with h | h
            · subst h
              rw [he]
              simp only []
              constructor
              · intro hx
                exact absurd hx (by simp)
              · intro hx
                exact absurd hx hnop
            · rw [he] at h
              exact ihs.2.2 p h

/-- Claim C9: over any sequence of enqueued oneshot operations (short of
exhausting the 64-bit counter), the cancellation tokens returned for
asynchronously spawned operations are exactly `1, 2, 3, …` in order —
nonzero, pairwise distinct, allocated monotonically starting from 1 and
increasing by 1 per spawned operation — and a returned token is 0 exactly
when the operation was the synchronously resolved `Nop`, whose completion
went to the local queue. -/
theorem c9_token_allocation (ops : List (OneshotOp × Nat))
    (h : 1 + countSpawns ops < 2 ^ 64) :
    issuedTokens ops = List.range' 1 (countSpawns ops) ∧
    (issuedTokens ops).Nodup ∧
    (∀ t ∈ issuedTokens ops, t ≠ 0) ∧
    (∀ p ∈ (runOps ops initExecState).2.zip ops, (p.1 = .ok 0 ↔ p.2.1 = .nop)) := by
  have hmain := runOps_tokens ops initExecState (by simpa [initExecState] using h)
    (by simp [initExecState])
  have h1 : issuedTokens ops = List.range' 1 (countSpawns ops) := by
    unfold issuedTokens
    rw [hmain.2.1]
    rfl
  refine ⟨h1, ?_, ?_, hmain.2.2⟩
  · rw [h1]
    exact List.nodup_range' _ _
  · intro t ht
    rw [h1] at ht
    have := List.mem_range'.mp ht
    omega

/-- Witness for C9: a nop, an early-failing read, a delay and a DNS lookup
issue exactly the tokens 1 and 2. -/
theorem c9_token_allocation_witness :
    1 + countSpawns [(.nop, 5), (.read (some EBADF), 6), (.delay, 7), (.dnsLookup, 8)] <
      2 ^ 64 ∧
    issuedTokens [(.nop, 5), (.read (some EBADF), 6), (.delay, 7), (.dnsLookup, 8)] =
      List.range' 1 2 :=
  ⟨by norm_num [countSpawns, OneshotOp.spawns],
    (c9_token_allocation [(.nop, 5), (.read (some EBADF), 6), (.delay, 7), (.dnsLookup, 8)]
      (by norm_num [countSpawns, OneshotOp.spawns])).1⟩

/-- Claim C10: `wait` delivers from the thread-local queue before
consulting the cross-thread channel, and a synchronously resolved `Nop` is
observationally identical to an asynchronous operation: after enqueueing it
(starting from an empty local queue), the next `wait` yields its completion
record `(0, user_context)` — the caller's context echoed back unchanged with
the success code — ahead of every completion sitting in the cross-thread
channel. -/
theorem c10_wait_local_first (s : ExecState) (uc : Nat)
    (c : Nat × Nat) (rest : List (Nat × Nat)) :
    (s.localQ = c :: rest → waitNext s = some (c, { s with localQ := rest })) ∧
    (s.localQ = [] →
      waitNext (enqueueOneshot .nop uc s).2 =
        some ((0, uc), { s with localQ := [] })) := by
  constructor
  · intro h
    unfold waitNext
    rw [h]
  · intro h
    show waitNext { s with localQ := s.localQ ++ [(0, uc)] } = _
    rw [h]
    rfl

/-- Witness for C10: with one completion already in the cross-thread
channel, enqueueing a nop makes the next wait yield the nop's completion
first. -/
theorem c10_wait_local_first_witness :
    waitNext (enqueueOneshot .nop 42 ⟨5, [], [], [(EPERM, 9)]⟩).2 =
      some ((0, 42), ⟨5, [], [], [(EPERM, 9)]⟩) :=
  (c10_wait_local_first ⟨5, [], [], [(EPERM, 9)]⟩ 42 (0, 0) []).2 rfl

/-- Running the copy loop on a regular-file source reads exactly the
minimum of the requested count and the bytes available past the offset, in
chunks of at most 4096 bytes. -/
theorem sendFileLoop_file_eval (stdin data : List Nat) (fd : Nat) (hfd : 3 ≤ fd) :
    ∀ count offset total chunks, (∀ c ∈ chunks, c ≤ 4096) →
      ∃ ch, sendFileLoop stdin ⟨fd, true, offset, .file data⟩ count total chunks =
          .success (total + min count (data.length - offset)) ch ∧
        ∀ c ∈ ch, c ≤ 4096 := by
  intro count
  induction count using Nat.strong_induction_on with
  | _ count ih =>
      intro offset total chunks hch
      by_cases h0 : count = 0
      · subst h0
        refine ⟨chunks, ?_, hch⟩
        rw [sendFileLoop.eq_def]
        simp
      · rw [sendFileLoop.eq_def]
        have hf0 : ¬ fd = 0 := by omega
        have hf12 : ¬ (fd = 1 ∨ fd = 2) := by omega
        simp only [dif_neg h0, if_neg hf0, if_neg hf12]
        simp only [if_neg (by simp : ¬ (true = false))]
        obtain ⟨ch, hrec, hbound⟩ :=
          ih (count - min count 4096) (by omega)
            (offset + min (min count 4096) (data.length - offset))
            (total + min (min count 4096) (data.length - offset))
            (chunks ++ [min (min count 4096) (data.length - offset)])
            (by
              intro c hc
              rcases List.mem_append.mp hc with h | h
              · exact hch c h
              · have : c = min (min count 4096) (data.length - offset) := by
                  simpa using h
                omega)
        refine ⟨ch, ?_, hbound⟩
        show sendFileLoop stdin
            ⟨fd, true, offset + min (min count 4096) (data.length - offset), .file data⟩
            (count - min count 4096)
            (total + min (min count 4096) (data.length - offset))
            (chunks ++ [min (min count 4096) (data.length - offset)]) = _
        rw [hrec]
        have harith : total + min (min count 4096) (data.length - offset) +
            min (count - min count 4096)
              (data.length - (offset + min (min count 4096) (data.length - offset))) =
            total + min count (data.length - offset) := by
          omega
        rw [harith]

/-- Running the copy loop on an in-memory-buffer source (offset within
bounds) reads exactly the minimum of the requested count and the bytes
available past the offset, in chunks of at most 4096 bytes. -/
theorem sendFileLoop_buffer_eval (stdin data : List Nat) (fd : Nat) (hfd : 3 ≤ fd) :
    ∀ count offset total chunks, offset ≤ data.length → (∀ c ∈ chunks, c ≤ 4096) →
      ∃ ch, sendFileLoop stdin ⟨fd, true, offset, .buffer data⟩ count total chunks =
          .success (total + min count (data.length - offset)) ch ∧
        ∀ c ∈ ch, c ≤ 4096 := by
  intro count
  induction count using Nat.strong_induction_on with
  | _ count ih =>
      intro offset total chunks hoff hch
      by_cases h0 : count = 0
      · subst h0
        refine ⟨chunks, ?_, hch⟩
        rw [sendFileLoop.eq_def]
        simp
      · rw [sendFileLoop.eq_def]
        have hf0 : ¬ fd = 0 := by omega
        have hf12 : ¬ (fd = 1 ∨ fd = 2) := by omega
        simp only [dif_neg h0, if_neg hf0, if_neg hf12]
        simp only [if_neg (by simp : ¬ (true = false))]
        simp only [if_neg (by omega : ¬ data.length < offset)]
        obtain ⟨ch, hrec, hbound⟩ :=
          ih (count - min count 4096) (by omega)
            (offset + min (min count 4096) (data.length - offset))
            (total + min (min count 4096) (data.length - offset))
            (chunks ++ [min (min count 4096) (data.length - offset)])
            (by omega)
            (by
              intro c hc
              rcases List.mem_append.mp hc with h | h
              · exact hch c h
              · have : c = min (min count 4096) (data.length - offset) := by
                  simpa using h
                omega)
        refine ⟨ch, ?_, hbound⟩
        show sendFileLoop stdin
            ⟨fd, true, offset + min (min count 4096) (data.length - offset), .buffer data⟩
            (count - min count 4096)
            (total + min (min count 4096) (data.length - offset))
            (chunks ++ [min (min count 4096) (data.length - offset)]) = _
        rw [hrec]
        have harith : total + min (min count 4096) (data.length - offset) +
            min (count - min count 4096)
              (data.length - (offset + min (min count 4096) (data.length - offset))) =
            total + min count (data.length - offset) := by
          omega
        rw [harith]

/-- Claim C5: `sock_send_file` copies in chunks of at most 4096 bytes,
advances the source offset by the bytes actually read, and returns the
accumulated total as the transmitted count; asked to transfer `count` bytes
from a regular-file or in-memory-buffer source holding `M ≤ count` available
bytes past the starting offset, it returns exactly `M` — never more, and it
never reads past end-of-file (a file read beyond the end returns 0 bytes
and for a buffer the offset never exceeds the length, so the run ends in
`success`, not a panic). -/
theorem c5_send_file_bounded (stdin data : List Nat) (fd offset count : Nat)
    (hfd : 3 ≤ fd) (hM : data.length - offset ≤ count) (hoff : offset ≤ data.length) :
    (∃ ch, sock_send_file stdin ⟨fd, true, 0, .file data⟩ offset count =
        .success (data.length - offset) ch ∧ ∀ c ∈ ch, c ≤ 4096) ∧
    (∃ ch, sock_send_file stdin ⟨fd, true, 0, .buffer data⟩ offset count =
        .success (data.length - offset) ch ∧ ∀ c ∈ ch, c ≤ 4096) := by
  have hmin : min count (data.length - offset) = data.length - offset := by omega
  constructor
  · obtain ⟨ch, hrun, hb⟩ := sendFileLoop_file_eval stdin data fd hfd count offset 0 []
      (by intro c hc; simp at hc)
    refine ⟨ch, ?_, hb⟩
    show sendFileLoop stdin ⟨fd, true, offset, .file data⟩ count 0 [] = _
    rw [hrun, Nat.zero_add, hmin]
  · obtain ⟨ch, hrun, hb⟩ := sendFileLoop_buffer_eval stdin data fd hfd count offset 0 []
      hoff (by intro c hc; simp at hc)
    refine ⟨ch, ?_, hb⟩
    show sendFileLoop stdin ⟨fd, true, offset, .buffer data⟩ count 0 [] = _
    rw [hrun, Nat.zero_add, hmin]

/-- Witness for C5: transferring up to 5000 bytes from a 3-byte buffer
starting at offset 1 transmits exactly 2 bytes. -/
theorem c5_send_file_bounded_witness :
    (3 : Nat) ≤ 3 ∧ [7, 8, 9].length - 1 ≤ 5000 ∧ (1 : Nat) ≤ [7, 8, 9].length ∧
    ∃ ch, sock_send_file [] ⟨3, true, 0, .buffer [7, 8, 9]⟩ 1 5000 =
        .success ([7, 8, 9].length - 1) ch ∧ ∀ c ∈ ch, c ≤ 4096 :=
  ⟨by decide, by decide, by decide,
    (c5_send_file_bounded [] [7, 8, 9] 3 1 5000 (by decide) (by decide) (by decide)).2⟩

/-- Claim C6 (code bug): the host-error mapping is total — being a total
function over `IoErrorKind` with the catch-all `other ↦ __WASI_EINVAL` arm —
but the syscall entry point is not panic-free: `sock_send_file` on a source
descriptor whose inode kind is a symlink reaches the `unimplemented!` macro
and panics instead of returning a result code. -/
theorem c6_symlink_source_panics :
    sock_send_file [] ⟨3, true, 0, .symlink⟩ 0 1 = .panicked ∧
    from_tokio_error .other = EINVAL := by
  constructor
  · show sendFileLoop [] ⟨3, true, 0, .symlink⟩ 1 0 [] = .panicked
    rw [sendFileLoop.eq_def]
    simp
  · rfl

/-- Counterexample to claim C7: a directory source that lacks the read
right does not fail `IsDirectory` — the rights check runs before the kind
dispatch, so it fails `AccessDenied`. -/
theorem c7_counterexample :
    sock_send_file [] ⟨5, false, 0, .dir⟩ 0 1 = .errno EACCES ∧
    sock_send_file [] ⟨5, false, 0, .dir⟩ 0 1 ≠ .errno EISDIR := by
  have h : sock_send_file [] ⟨5, false, 0, .dir⟩ 0 1 = .errno EACCES := by
    show sendFileLoop [] ⟨5, false, 0, .dir⟩ 1 0 [] = _
    rw [sendFileLoop.eq_def]
    simp
  refine ⟨h, ?_⟩
  rw [h]
  simp [EACCES, EISDIR]

/-- Claim C7 as amended: for a requested count of at least one byte, the
failure cases of `sock_send_file` follow the source's check order — a
standard-output or standard-error source always fails `InvalidArgument`
(regardless of rights or kind); any other non-stdin source lacking the read
right fails `AccessDenied` (even a directory); a directory or root-directory
source holding the read right fails `IsDirectory`.  Each of these failures
returns an errno result, so the bytes-transmitted count is never written
back (only the `success` outcome writes it). -/
theorem c7_send_file_error_precedence (stdin : List Nat) (k : SrcKind)
    (fd offset count : Nat) (hfd : 3 ≤ fd) (hc : 1 ≤ count) (hasR : Bool) :
    (sock_send_file stdin ⟨fd, true, 0, .dir⟩ offset count = .errno EISDIR) ∧
    (sock_send_file stdin ⟨fd, true, 0, .root⟩ offset count = .errno EISDIR) ∧
    (sock_send_file stdin ⟨1, hasR, 0, k⟩ offset count = .errno EINVAL) ∧
    (sock_send_file stdin ⟨2, hasR, 0, k⟩ offset count = .errno EINVAL) ∧
    (sock_send_file stdin ⟨fd, false, 0, k⟩ offset count = .errno EACCES) := by
  have h0 : ¬ count = 0 := by omega
  have hA : ¬ fd = 0 := by omega
  have hB : ¬ (fd = 1 ∨ fd = 2) := by omega
  refine ⟨?_, ?_, ?_, ?_, ?_⟩
  · show sendFileLoop stdin ⟨fd, true, offset, .dir⟩ count 0 [] = _
    rw [sendFileLoop.eq_def]
    simp only [dif_neg h0, if_neg hA, if_neg hB]
    simp
  · show sendFileLoop stdin ⟨fd, true, offset, .root⟩ count 0 [] = _
    rw [sendFileLoop.eq_def]
    simp only [dif_neg h0, if_neg hA, if_neg hB]
    simp
  · show sendFileLoop stdin ⟨1, hasR, offset, k⟩ count 0 [] = _
    rw [sendFileLoop.eq_def]
    simp only [dif_neg h0]
    simp
  · show sendFileLoop stdin ⟨2, hasR, offset, k⟩ count 0 [] = _
    rw [sendFileLoop.eq_def]
    simp only [dif_neg h0]
    simp
  · show sendFileLoop stdin ⟨fd, false, offset, k⟩ count 0 [] = _
    rw [sendFileLoop.eq_def]
    simp only [dif_neg h0, if_neg hA, if_neg hB]
    simp

/-- Witness for the amended C7 at a concrete descriptor. -/
theorem c7_send_file_error_precedence_witness :
    (3 : Nat) ≤ 3 ∧ (1 : Nat) ≤ 1 ∧
    sock_send_file [] ⟨3, true, 0, .dir⟩ 0 1 = .errno EISDIR :=
  ⟨by decide, by decide,
    (c7_send_file_error_precedence [] (.file []) 3 0 1 (by decide) (by decide) true).1⟩

end WasmerSpec
